import Mathlib

/-!
Shallow embedding of `lpsolve_wrapper.py` (hangvane/lpsolve_wrapper).

Python floats are modelled as rationals extended with the two numpy
infinities (`Val`); numpy arrays as a shape together with the row-major
flat entry list (`NDArr`); the ordered `notations` dict of `Model` as an
association list in insertion order (Python 3.7+ dict semantics).  The
external `lp_maker` / `lpsolve` backend is the opaque Solver collaborator:
`Model.lp_solve` is embedded up to the point where the assembled inputs
(`SolverInput`) are handed over, together with its state effect of
zero-filling the staging buffers afterwards (lines 261-263); the actual
simplex run and the reshaping of its output are outside the embedded
state.  A failing call (Python `KeyError` on an unregistered name) is an
`Except.error` carrying the model object as the exception leaves it,
since Python mutates the model in place before the raise.
-/

/-- `INT_TYPE = 1` (line 6). -/
def INT_TYPE : Nat := 1

/-- `FLOAT_TYPE = 0` (line 7). -/
def FLOAT_TYPE : Nat := 0

/-- `EQ = 0` (line 8). -/
def EQ : Int := 0

/-- `GEQ = 1` (line 9). -/
def GEQ : Int := 1

/-- `LEQ = -1` (line 10). -/
def LEQ : Int := -1

/-- `INF = 100000` (line 11): the big-M sentinel substituted for `np.inf`. -/
def INF : ℚ := 100000

/-- A numpy float value as the wrapper uses it: finite (modelled as a
rational), `np.inf`, or `-np.inf`. -/
inductive Val where
  | fin (q : ℚ)
  | pinf
  | ninf
deriving DecidableEq

/-- A numpy ndarray: its shape and its row-major (`ravel` order) entry
list.  Every array numpy itself builds satisfies `data.length = shape.prod`. -/
structure NDArr where
  shape : List Nat
  data : List Val
deriving DecidableEq

/-- `np.zeros(shape)` (line 100). -/
def NDArr.zeros (shape : List Nat) : NDArr :=
  ⟨shape, List.replicate shape.prod (Val.fin 0)⟩

/-- `arr.fill(v)` (lines 96, 138, 263): in-place fill, keeping the shape. -/
def NDArr.fill (a : NDArr) (v : Val) : NDArr :=
  ⟨a.shape, List.replicate a.data.length v⟩

/-- `arr.itemset(idx, v)` (line 153) at a row-major flat index (a tuple
index denotes the corresponding row-major position; the claims only
exercise in-range indices, where numpy raises on an out-of-range one). -/
def NDArr.itemset (a : NDArr) (i : Nat) (v : Val) : NDArr :=
  ⟨a.shape, a.data.set i v⟩

/-- `np.ravel(arr)` / `arr.ravel()` (lines 127, 235, 250, 251): the
row-major flat entry list. -/
def NDArr.ravel (a : NDArr) : List Val :=
  a.data

/-- A bound as the caller supplies it: a scalar (broadcast at init,
lines 93-97) or an array kept as given. -/
inductive Bound where
  | scalar (v : Val)
  | arr (a : NDArr)
deriving DecidableEq

/-- Lines 93-97: a non-Iterable bound is broadcast with
`np.empty(shape)` + `fill`; an iterable one is kept as supplied. -/
def materialize (shape : List Nat) : Bound → NDArr
  | .scalar v => ⟨shape, List.replicate shape.prod v⟩
  | .arr a => a

/-- The dict the `lw.notation(...)` helper returns (lines 15-33): the four
user-facing fields, before `__init__` adds the derived ones. -/
structure NotationSpec where
  shape : List Nat
  upper_bound : Bound
  lower_bound : Bound
  ntype : Nat
deriving DecidableEq

/-- One entry of `Model.notations` after the `__init__` loop has
processed it: materialized bounds plus the added `_mat` (`mat`),
`_offset` (`offset`) and `_length` (`nlen`) fields (lines 91-105). -/
structure Notation where
  shape : List Nat
  upper_bound : NDArr
  lower_bound : NDArr
  ntype : Nat
  mat : NDArr
  offset : Nat
  nlen : Nat
deriving DecidableEq

/-- The `Model` object state (lines 74-89): constraint rows `coef_mat`,
right-hand sides `right_values`, relation codes `constr_types`, 1-based
integer indices `must_be_int`, total flat length `length`, and the
ordered registry `notations`. -/
structure Model where
  notations : List (String × Notation)
  coef_mat : List (List Val)
  right_values : List Val
  constr_types : List Int
  must_be_int : List Nat
  length : Nat
deriving DecidableEq

/-- Lines 93-103 for a single registry entry, at running offset `off`
(the value of `self.length` when the entry is processed). -/
def initNotation (off : Nat) (s : NotationSpec) : Notation :=
  { shape := s.shape
    upper_bound := materialize s.shape s.upper_bound
    lower_bound := materialize s.shape s.lower_bound
    ntype := s.ntype
    mat := NDArr.zeros s.shape
    offset := off
    nlen := s.shape.prod }

/-- The `__init__` loop over the ordered dict entries (lines 91-105),
with the running `self.length` as the `off` accumulator. -/
def initNotations (off : Nat) : List (String × NotationSpec) → List (String × Notation)
  | [] => []
  | (n, s) :: rest => (n, initNotation off s) :: initNotations (off + s.shape.prod) rest

/-- Lines 107-111: `np.arange(_length) + _offset + 1` extended onto
`must_be_int` for every `INT_TYPE` entry, in registration order. -/
def initMustBeInt (off : Nat) : List (String × NotationSpec) → List Nat
  | [] => []
  | (_, s) :: rest =>
    (if s.ntype = INT_TYPE then (List.range s.shape.prod).map (fun j => j + off + 1) else [])
      ++ initMustBeInt (off + s.shape.prod) rest

/-- The final value of `self.length`: the sum of `np.prod(shape)` over
all registry entries (lines 103-105). -/
def totalLen (specs : List (String × NotationSpec)) : Nat :=
  (specs.map (fun p => p.2.shape.prod)).sum

/-- `Model.__init__` (lines 55-111). -/
def mkModel (specs : List (String × NotationSpec)) : Model :=
  { notations := initNotations 0 specs
    coef_mat := []
    right_values := []
    constr_types := []
    must_be_int := initMustBeInt 0 specs
    length := totalLen specs }

/-- `self.notations[name]`, as a lookup in the ordered registry. -/
def Model.lookup (m : Model) (name : String) : Option Notation :=
  (m.notations.find? (fun p => p.1 == name)).map (fun p => p.2)

/-- Replace the `_mat` of the entry called `name` by `f` of its current
value (`itemset` mutation, callback mutation, or wholesale `np.array`
replacement, depending on `f`). -/
def Model.setMat (m : Model) (name : String) (f : NDArr → NDArr) : Model :=
  { m with
    notations := m.notations.map
      (fun p => if p.1 = name then (p.1, { p.2 with mat := f p.2.mat }) else p) }

/-- Lines 136-138 and 261-263: `n['_mat'].fill(0)` for every entry. -/
def Model.clearMats (m : Model) : Model :=
  { m with
    notations := m.notations.map (fun p => (p.1, { p.2 with mat := p.2.mat.fill (Val.fin 0) })) }

/-- Lines 126-130: `np.concatenate([n['_mat'].ravel() for n in self.notations.values()])`. -/
def Model.flatMats (m : Model) : List Val :=
  (m.notations.map (fun p => p.2.mat.ravel)).flatten

/-- Lines 131-132 elementwise: `tmp[np.isposinf(tmp)] = INF;
tmp[np.isneginf(tmp)] = -INF`. -/
def clampInf : Val → Val
  | .pinf => .fin INF
  | .ninf => .fin (-INF)
  | .fin q => .fin q

/-- `Model._post_proc` (lines 113-138): append the right-hand side and
relation code, append the clamped flat row built from all `_mat`
buffers, then zero-fill every buffer. -/
def Model.post_proc (m : Model) (right_value : Val) (constr_type : Int) : Model :=
  { notations := (m.clearMats).notations
    coef_mat := m.coef_mat ++ [m.flatMats.map clampInf]
    right_values := m.right_values ++ [right_value]
    constr_types := m.constr_types ++ [constr_type]
    must_be_int := m.must_be_int
    length := m.length }

/-- The dict the `lw.coef(...)` helper returns (lines 36-51), with the
index in row-major flat form. -/
structure Coef where
  name : String
  idx : Nat
  value : Val
deriving DecidableEq

/-- The shared shape of the three authoring loops (lines 151-153,
168-170, 185-186): walk the supplied entries in order and apply each
entry's buffer mutation to its named registry entry; an unregistered
name raises `KeyError`, leaving the partially-mutated model. -/
def stageGo : Model → List (String × (NDArr → NDArr)) → Except Model Model
  | m, [] => .ok m
  | m, (n, f) :: rest =>
    if (m.lookup n).isSome then stageGo (m.setMat n f) rest else .error m

/-- Line 153: each `coef` dict becomes the in-place
`_mat.itemset(idx, value)` mutation on its named entry. -/
def itemActs (coefs : List Coef) : List (String × (NDArr → NDArr)) :=
  coefs.map (fun c => (c.name, fun a => a.itemset c.idx c.value))

/-- Line 170: each supplied array replaces the named entry's `_mat`
wholesale (`self.notations[name]['_mat'] = np.array(mat)`); note there
is no shape check. -/
def matActs (coef_mats : List (String × NDArr)) : List (String × (NDArr → NDArr)) :=
  coef_mats.map (fun p => (p.1, fun _ => p.2))

/-- `Model.add_constr` (lines 140-155). -/
def Model.add_constr (m : Model) (coefs : List Coef) (right_value : Val)
    (constr_type : Int) : Except Model Model :=
  (stageGo m (itemActs coefs)).map (fun s => s.post_proc right_value constr_type)

/-- `Model.add_constr_mat` (lines 157-172). -/
def Model.add_constr_mat (m : Model) (coef_mats : List (String × NDArr))
    (right_value : Val) (constr_type : Int) : Except Model Model :=
  (stageGo m (matActs coef_mats)).map (fun s => s.post_proc right_value constr_type)

/-- `Model.add_constr_callback` (lines 174-188): each callback mutates
the named entry's `_mat` in place, modelled as the function from the
buffer to its mutated value. -/
def Model.add_constr_callback (m : Model) (callbacks : List (String × (NDArr → NDArr)))
    (right_value : Val) (constr_type : Int) : Except Model Model :=
  (stageGo m callbacks).map (fun s => s.post_proc right_value constr_type)

/-- `np.reshape(v, shape)` on a 1-d input (line 211): succeeds exactly
when the element count matches the target shape's product. -/
def npReshape (data : List Val) (shape : List Nat) : Option NDArr :=
  if data.length = shape.prod then some ⟨shape, data⟩ else none

/-- The loop of `reshape_notation` (lines 209-212) over the ordered
registry entries: slice `raw[offset : offset + nlen]` and reshape it
to the entry's original shape; a reshape error aborts the call. -/
def reshapeGo : List (String × Notation) → List Val → Option (List (String × NDArr))
  | [], _ => some []
  | (n, v) :: rest, raw =>
    match npReshape ((raw.drop v.offset).take v.nlen) v.shape, reshapeGo rest raw with
    | some a, some tl => some ((n, a) :: tl)
    | _, _ => none

/-- `Model.reshape_notation` (lines 199-212). -/
def Model.reshape_notation (m : Model) (raw : List Val) : Option (List (String × NDArr)) :=
  reshapeGo m.notations raw

/-- The row-major slices lines 210-211 extract, written directly from
the registry specs with the running offset. -/
def sliceSpecs (off : Nat) (raw : List Val) : List (String × NotationSpec) → List (String × NDArr)
  | [] => []
  | (n, s) :: rest =>
    (n, ⟨s.shape, (raw.drop off).take s.shape.prod⟩) :: sliceSpecs (off + s.shape.prod) raw rest

/-- The arguments `Model.lp_solve` hands to `lp_maker` (lines 242-255):
objective vector, constraint rows, right-hand sides, relation codes, the
flattened bound vectors, integer indices and the two flags.  (Lines
245-247 additionally convert the rows to `float32` and special-case the
one-row matrix for the backend's benefit; that repackaging is part of
the opaque Solver boundary.) -/
structure SolverInput where
  obj : List Val
  constr_rows : List (List Val)
  rhs : List Val
  rel : List Int
  lower_bounds : List Val
  upper_bounds : List Val
  int_idx : List Nat
  scale_flag : Nat
  min_flag : Nat
deriving DecidableEq

/-- `Model.lp_solve` (lines 214-264), embedded up to the Solver
boundary: stage the objective arrays exactly like `add_constr_mat`
(lines 230-232), flatten and clamp them (lines 234-240), assemble the
`lp_maker` arguments (lines 242-255) - note the bound vectors of lines
250-251 are concatenated raw, with no infinity conversion - and
zero-fill every `_mat` (lines 261-263).  The simplex run and the
reshaping of its output happen beyond the returned `SolverInput`. -/
def Model.lp_solve (m : Model) (obj_func : List (String × NDArr))
    (minimize scale : Bool) : Except Model (Model × SolverInput) :=
  (stageGo m (matActs obj_func)).map (fun s =>
    (s.clearMats,
     { obj := s.flatMats.map clampInf
       constr_rows := s.coef_mat
       rhs := s.right_values
       rel := s.constr_types
       lower_bounds := (s.notations.map (fun p => p.2.lower_bound.ravel)).flatten
       upper_bounds := (s.notations.map (fun p => p.2.upper_bound.ravel)).flatten
       int_idx := s.must_be_int
       scale_flag := if scale then 1 else 0
       min_flag := if minimize then 1 else 0 }))

/-- The model object as it stands after a call, successful or not:
Python mutates in place, so a raised `KeyError` leaves the
partially-updated object behind. -/
def afterCall : Except Model Model → Model
  | .ok m => m
  | .error m => m

/-- Whether a call returned normally (no exception). -/
def isOkB : Except Model Model → Bool
  | .ok _ => true
  | .error _ => false

/-- The model object after an `lp_solve` call, successful or not. -/
def afterSolve : Except Model (Model × SolverInput) → Model
  | .ok p => p.1
  | .error m => m

/-- The `SolverInput` an `lp_solve` call handed over, if it got there. -/
def submitted : Except Model (Model × SolverInput) → Option SolverInput
  | .ok p => some p.2
  | .error _ => none

/-- The layout metadata of the registry: name, `_offset`, `_length` per
entry, in order. -/
def Model.layout (m : Model) : List (String × Nat × Nat) :=
  m.notations.map (fun p => (p.1, p.2.offset, p.2.nlen))

/-- Every staging buffer is all-zero. -/
def Model.buffersCleared (m : Model) : Prop :=
  ∀ p ∈ m.notations, ∀ v ∈ p.2.mat.data, v = Val.fin 0

/-! ### Concrete instances used by witnesses and counterexamples -/

/-- A one-entry registry: `x` of shape `(2,)`, float, bounds 0. -/
def w1specs : List (String × NotationSpec) :=
  [("x", ⟨[2], .scalar (Val.fin 0), .scalar (Val.fin 0), FLOAT_TYPE⟩)]

/-- The model after one successful itemized constraint on `w1specs`. -/
def w1res : Model :=
  afterCall ((mkModel w1specs).add_constr [⟨"x", 0, Val.fin 3⟩] (Val.fin 1) LEQ)

/-- A two-entry registry: `x` of shape `(2,3)` float, `y` of shape `(4,)` integer. -/
def w2specs : List (String × NotationSpec) :=
  [("x", ⟨[2, 3], .scalar (Val.fin 0), .scalar (Val.fin 0), FLOAT_TYPE⟩),
   ("y", ⟨[4], .scalar (Val.fin 0), .scalar (Val.fin 0), INT_TYPE⟩)]

/-- A two-entry registry: `x` of shape `(2,)`, `y` of shape `(1,)`, both float. -/
def c3specs : List (String × NotationSpec) :=
  [("x", ⟨[2], .scalar (Val.fin 0), .scalar (Val.fin 0), FLOAT_TYPE⟩),
   ("y", ⟨[1], .scalar (Val.fin 0), .scalar (Val.fin 0), FLOAT_TYPE⟩)]

def c3m : Model := mkModel c3specs

/-- The pattern `x = [1, 2], y = [3]` in itemized form. -/
def c3coefs : List Coef := [⟨"x", 0, Val.fin 1⟩, ⟨"x", 1, Val.fin 2⟩, ⟨"y", 0, Val.fin 3⟩]

/-- The same pattern in dense form. -/
def c3mats : List (String × NDArr) :=
  [("x", ⟨[2], [Val.fin 1, Val.fin 2]⟩), ("y", ⟨[1], [Val.fin 3]⟩)]

/-- The same pattern in callback form. -/
def c3cbs : List (String × (NDArr → NDArr)) :=
  [("x", fun a => (a.itemset 0 (Val.fin 1)).itemset 1 (Val.fin 2)),
   ("y", fun a => a.fill (Val.fin 3))]

def c3s1 : Model := afterCall (stageGo c3m (itemActs c3coefs))

def c3s2 : Model := afterCall (stageGo c3m (matActs c3mats))

def c3s3 : Model := afterCall (stageGo c3m c3cbs)

/-- `x` of shape `(2,2)` and `y` of shape `(3,)`, both float. -/
def w4specs : List (String × NotationSpec) :=
  [("x", ⟨[2, 2], .scalar (Val.fin 0), .scalar (Val.fin 0), FLOAT_TYPE⟩),
   ("y", ⟨[3], .scalar (Val.fin 0), .scalar (Val.fin 0), FLOAT_TYPE⟩)]

/-- Arrays matching the shapes of `w4specs`. -/
def w4xs : List NDArr :=
  [⟨[2, 2], [Val.fin 1, Val.fin 2, Val.fin 3, Val.fin 4]⟩,
   ⟨[3], [Val.fin 5, Val.fin 6, Val.fin 7]⟩]

/-- `x` of shape `(3,)`, float. -/
def w5specs : List (String × NotationSpec) :=
  [("x", ⟨[3], .scalar (Val.fin 0), .scalar (Val.fin 0), FLOAT_TYPE⟩)]

/-- An objective with both infinities and a finite coefficient. -/
def w5obj : List (String × NDArr) := [("x", ⟨[3], [Val.pinf, Val.ninf, Val.fin 7]⟩)]

/-- `w5specs` with the infinite objective staged into the buffer. -/
def w5s : Model := afterCall (stageGo (mkModel w5specs) (matActs w5obj))

/-- `w5s` with the same objective staged again. -/
def w5s2 : Model := afterCall (stageGo w5s (matActs w5obj))

/-- `x` of shape `(1,)` with upper bound `np.inf` and lower bound `-np.inf`. -/
def c6specs : List (String × NotationSpec) :=
  [("x", ⟨[1], .scalar Val.pinf, .scalar Val.ninf, FLOAT_TYPE⟩)]

def c6obj : List (String × NDArr) := [("x", NDArr.zeros [1])]

def c6s : Model := afterCall (stageGo (mkModel c6specs) (matActs c6obj))

/-- `x` of shape `(2,)`, float. -/
def c7specs : List (String × NotationSpec) :=
  [("x", ⟨[2], .scalar (Val.fin 0), .scalar (Val.fin 0), FLOAT_TYPE⟩)]

/-- A dense assignment whose array has shape `(3,)`, disagreeing with the
registered shape `(2,)`. -/
def c7bad : List (String × NDArr) := [("x", ⟨[3], [Val.fin 1, Val.fin 1, Val.fin 1]⟩)]

/-- `x` of shape `(1,)`, float: total flat dimension 1. -/
def c8specs : List (String × NotationSpec) :=
  [("x", ⟨[1], .scalar (Val.fin 0), .scalar (Val.fin 0), FLOAT_TYPE⟩)]

def c9specs : List (String × NotationSpec) :=
  [("x", ⟨[1], .scalar (Val.fin 0), .scalar (Val.fin 0), FLOAT_TYPE⟩)]

/-- A coefficient list whose first entry hits the registered `x` and whose
second references the unregistered name `bogus`. -/
def c9coefs : List Coef := [⟨"x", 0, Val.fin 5⟩, ⟨"bogus", 0, Val.fin 1⟩]

/-- The model object left behind by the failing `add_constr` call. -/
def c9err : Model := afterCall ((mkModel c9specs).add_constr c9coefs (Val.fin 0) EQ)

/-! ### Helper lemmas -/

theorem exmap_eq_ok {ε α β : Type} {e : Except ε α} {f : α → β} {b : β}
    (h : e.map f = .ok b) : ∃ a, e = .ok a ∧ b = f a := by
  cases e with
  | ok a => exact ⟨a, rfl, by simpa [Except.map] using h.symm⟩
  | error err => simp [Except.map] at h

theorem exmap_eq_error {ε α β : Type} {e : Except ε α} {f : α → β} {err : ε}
    (h : e.map f = .error err) : e = .error err := by
  cases e with
  | ok a => simp [Except.map] at h
  | error e' => simpa [Except.map] using h

theorem isOkB_map {f : Model → Model} (e : Except Model Model) :
    isOkB (e.map f) = isOkB e := by
  cases e <;> rfl

theorem afterCall_of_ok {e : Except Model Model} {s : Model}
    (h : e = .ok s) : afterCall e = s := by
  rw [h]; rfl

theorem afterCall_of_error {e : Except Model Model} {s : Model}
    (h : e = .error s) : afterCall e = s := by
  rw [h]; rfl

/-- Mutating one entry's `_mat` leaves every mat-independent projection of
the registry unchanged. -/
theorem setMat_map_proj {α : Type} (g : String × Notation → α)
    (hg : ∀ (p : String × Notation) (f : NDArr → NDArr),
      g (p.1, { p.2 with mat := f p.2.mat }) = g p)
    (m : Model) (name : String) (f : NDArr → NDArr) :
    (m.setMat name f).notations.map g = m.notations.map g := by
  show (m.notations.map _).map g = _
  rw [List.map_map]
  refine List.map_congr_left ?_
  intro p _
  simp only [Function.comp_apply]
  by_cases h : p.1 = name
  · rw [if_pos h]
    exact hg p f
  · rw [if_neg h]

theorem setMat_lookup_isSome (m : Model) (name hay : String) (f : NDArr → NDArr) :
    ((m.setMat name f).lookup hay).isSome = (m.lookup hay).isSome := by
  unfold Model.lookup Model.setMat
  rw [List.find?_map]
  have hpred : ((fun p : String × Notation => p.1 == hay) ∘
      (fun p : String × Notation =>
        if p.1 = name then (p.1, { p.2 with mat := f p.2.mat }) else p))
      = (fun p : String × Notation => p.1 == hay) := by
    funext p
    simp only [Function.comp_apply]
    by_cases h : p.1 = name
    · rw [if_pos h]
    · rw [if_neg h]
  rw [hpred]
  cases hfind : List.find? (fun p : String × Notation => p.1 == hay) m.notations <;>
    simp [hfind]

/-- The staging loop leaves every mat-independent projection of the
registry unchanged, whether it finishes or raises. -/
theorem stageGo_map_proj {α : Type} (g : String × Notation → α)
    (hg : ∀ (p : String × Notation) (f : NDArr → NDArr),
      g (p.1, { p.2 with mat := f p.2.mat }) = g p)
    (acts : List (String × (NDArr → NDArr))) (m : Model) :
    (afterCall (stageGo m acts)).notations.map g = m.notations.map g := by
  induction acts generalizing m with
  | nil => rfl
  | cons a rest ih =>
    cases a with
    | mk n f =>
      unfold stageGo
      by_cases h : (m.lookup n).isSome
      · rw [if_pos h, ih (m.setMat n f), setMat_map_proj g hg]
      · rw [if_neg h]; rfl

/-- The staging loop never touches the constraint store, the right-hand
sides, the relation codes, the integer indices or the total length. -/
theorem stageGo_stores (acts : List (String × (NDArr → NDArr))) (m : Model) :
    (afterCall (stageGo m acts)).coef_mat = m.coef_mat ∧
    (afterCall (stageGo m acts)).right_values = m.right_values ∧
    (afterCall (stageGo m acts)).constr_types = m.constr_types ∧
    (afterCall (stageGo m acts)).must_be_int = m.must_be_int ∧
    (afterCall (stageGo m acts)).length = m.length := by
  induction acts generalizing m with
  | nil => exact ⟨rfl, rfl, rfl, rfl, rfl⟩
  | cons a rest ih =>
    cases a with
    | mk n f =>
      unfold stageGo
      by_cases h : (m.lookup n).isSome
      · rw [if_pos h]; exact ih (m.setMat n f)
      · rw [if_neg h]; exact ⟨rfl, rfl, rfl, rfl, rfl⟩

/-- The staging loop finishes whenever every referenced name is registered. -/
theorem stageGo_ok_names (acts : List (String × (NDArr → NDArr))) (m : Model)
    (h : ∀ a ∈ acts, (m.lookup a.1).isSome = true) :
    isOkB (stageGo m acts) = true := by
  induction acts generalizing m with
  | nil => rfl
  | cons a rest ih =>
    cases a with
    | mk n f =>
      unfold stageGo
      rw [if_pos (h (n, f) (List.mem_cons_self _ _))]
      refine ih (m.setMat n f) ?_
      intro b hb
      rw [setMat_lookup_isSome]
      exact h b (List.mem_cons_of_mem _ hb)

theorem clearMats_cleared (m : Model) : (m.clearMats).buffersCleared := by
  intro p hp v hv
  unfold Model.clearMats at hp
  simp only [List.mem_map] at hp
  obtain ⟨q, _, rfl⟩ := hp
  simp only [NDArr.fill] at hv
  exact List.eq_of_mem_replicate hv

theorem clearMats_map_proj {α : Type} (g : String × Notation → α)
    (hg : ∀ (p : String × Notation) (f : NDArr → NDArr),
      g (p.1, { p.2 with mat := f p.2.mat }) = g p)
    (m : Model) :
    (m.clearMats).notations.map g = m.notations.map g := by
  show (m.notations.map _).map g = _
  rw [List.map_map]
  refine List.map_congr_left ?_
  intro p _
  simp only [Function.comp_apply]
  exact hg p (fun a => a.fill (Val.fin 0))

theorem post_proc_cleared (m : Model) (rv : Val) (ct : Int) :
    (m.post_proc rv ct).buffersCleared :=
  fun p hp => clearMats_cleared m p hp

theorem totalLen_cons (p : String × NotationSpec) (rest : List (String × NotationSpec)) :
    totalLen (p :: rest) = p.2.shape.prod + totalLen rest := by
  simp [totalLen]

/-- When the raw vector covers every slice, the reshape loop succeeds and
returns exactly the code's slices. -/
theorem reshapeGo_full (specs : List (String × NotationSpec)) :
    ∀ (off : Nat) (raw : List Val), off + totalLen specs ≤ raw.length →
      reshapeGo (initNotations off specs) raw = some (sliceSpecs off raw specs) := by
  induction specs with
  | nil => intro off raw _; rfl
  | cons p rest ih =>
    obtain ⟨n, s⟩ := p
    intro off raw h
    rw [totalLen_cons] at h
    have h2 : off + (s.shape.prod + totalLen rest) ≤ raw.length := by simpa using h
    have hlen : ((raw.drop off).take s.shape.prod).length = s.shape.prod := by
      rw [List.length_take, List.length_drop]
      omega
    have hrest := ih (off + s.shape.prod) raw (by omega)
    simp only [initNotations, reshapeGo, initNotation, npReshape, hlen, if_pos, hrest,
      sliceSpecs]

/-- When the raw vector is too short to cover every slice, the reshape
loop hits a failing `np.reshape` and aborts. -/
theorem reshapeGo_short (specs : List (String × NotationSpec)) :
    ∀ (off : Nat) (raw : List Val), off ≤ raw.length →
      raw.length < off + totalLen specs →
      reshapeGo (initNotations off specs) raw = none := by
  induction specs with
  | nil =>
    intro off raw h1 h2
    simp [totalLen] at h2
    omega
  | cons p rest ih =>
    obtain ⟨n, s⟩ := p
    intro off raw h1 h2
    rw [totalLen_cons] at h2
    have h3 : raw.length < off + (s.shape.prod + totalLen rest) := by simpa using h2
    by_cases hc : raw.length < off + s.shape.prod
    · have hne : ((raw.drop off).take s.shape.prod).length ≠ s.shape.prod := by
        rw [List.length_take, List.length_drop]
        omega
      simp only [initNotations, reshapeGo, initNotation, npReshape, hne, if_neg]
      cases reshapeGo (initNotations (off + s.shape.prod) rest) raw <;> rfl
    · have hrest := ih (off + s.shape.prod) raw (by omega) (by omega)
      simp only [initNotations, reshapeGo, initNotation, npReshape, hrest]
      cases hnp : (if ((raw.drop off).take s.shape.prod).length = s.shape.prod
          then some (⟨s.shape, (raw.drop off).take s.shape.prod⟩ : NDArr) else none) <;> rfl

/-- Dropping `off` entries of a vector that holds the concatenated
per-entry data starting at `off` makes each slice recover its array. -/
theorem sliceSpecs_of_drop
    (P : NDArr → String × NotationSpec → Prop)
    (hP : ∀ x p, P x p → x.shape = p.2.shape ∧ x.data.length = p.2.shape.prod) :
    ∀ {xs : List NDArr} {specs : List (String × NotationSpec)},
      List.Forall₂ P xs specs →
      ∀ (off : Nat) (raw t : List Val),
        raw.drop off = (xs.map NDArr.ravel).flatten ++ t →
        sliceSpecs off raw specs = (specs.map (fun p => p.1)).zip xs := by
  intro xs specs hx
  induction hx with
  | nil => intro off raw t _; rfl
  | cons hxp hrest ih =>
    intro off raw t hdrop
    rename_i x p xs' specs'
    obtain ⟨hsh, hdl⟩ := hP x p hxp
    have hdrop' : raw.drop off = x.data ++ ((xs'.map NDArr.ravel).flatten ++ t) := by
      simpa [NDArr.ravel, List.append_assoc] using hdrop
    have htake : (raw.drop off).take p.2.shape.prod = x.data := by
      rw [hdrop']
      exact List.take_left' hdl
    have hdrop2 : raw.drop (off + p.2.shape.prod) = (xs'.map NDArr.ravel).flatten ++ t := by
      rw [← List.drop_drop, hdrop']
      exact List.drop_left' hdl
    show (p.1, (⟨p.2.shape, (raw.drop off).take p.2.shape.prod⟩ : NDArr)) ::
        sliceSpecs (off + p.2.shape.prod) raw specs' = _
    rw [htake, ih (off + p.2.shape.prod) raw t hdrop2]
    have hx0 : (⟨p.2.shape, x.data⟩ : NDArr) = x := by
      cases x with
      | mk sh d => simp at hsh; rw [hsh]
    rw [hx0]
    rfl

theorem flatten_ravel_length
    (P : NDArr → String × NotationSpec → Prop)
    (hP : ∀ x p, P x p → x.data.length = p.2.shape.prod) :
    ∀ {xs : List NDArr} {specs : List (String × NotationSpec)},
      List.Forall₂ P xs specs →
      ((xs.map NDArr.ravel).flatten).length = totalLen specs := by
  intro xs specs hx
  induction hx with
  | nil => rfl
  | cons hxp hrest ih =>
    rename_i x p xs' specs'
    rw [totalLen_cons]
    simp only [List.map_cons, List.flatten_cons, List.length_append, ih]
    simp only [NDArr.ravel, hP x p hxp]

/-- The `i`-th registered entry carries the running prefix sum of the
earlier flattened lengths as its `_offset`. -/
theorem initNotations_getElem (specs : List (String × NotationSpec)) :
    ∀ (off i : Nat),
      (initNotations off specs)[i]? =
        (specs[i]?).map (fun p => (p.1, initNotation (off + totalLen (specs.take i)) p.2)) := by
  induction specs with
  | nil => intro off i; simp [initNotations]
  | cons hd rest ih =>
    obtain ⟨n, s⟩ := hd
    intro off i
    cases i with
    | zero => simp [initNotations, totalLen]
    | succ j =>
      simp only [initNotations, List.getElem?_cons_succ]
      rw [ih (off + s.shape.prod) j]
      have hfun : (fun p : String × NotationSpec =>
            (p.1, initNotation (off + s.shape.prod + totalLen (rest.take j)) p.2))
          = (fun p : String × NotationSpec =>
            (p.1, initNotation (off + totalLen (((n, s) :: rest).take (j + 1))) p.2)) := by
        funext p
        have : off + s.shape.prod + totalLen (rest.take j)
            = off + totalLen (((n, s) :: rest).take (j + 1)) := by
          simp [List.take_succ_cons, totalLen_cons]
          omega
        rw [this]
      rw [hfun]

theorem initNotations_length (specs : List (String × NotationSpec)) :
    ∀ off, (initNotations off specs).length = specs.length := by
  induction specs with
  | nil => intro off; rfl
  | cons hd rest ih =>
    obtain ⟨n, s⟩ := hd
    intro off
    simp [initNotations, ih]

/-- `must_be_int` is the in-order concatenation, over the registry, of the
1-based index blocks of the `INT_TYPE` entries. -/
theorem initMustBeInt_flatten (specs : List (String × NotationSpec)) :
    ∀ off, initMustBeInt off specs
      = ((initNotations off specs).map (fun p =>
          if p.2.ntype = INT_TYPE
          then (List.range p.2.nlen).map (fun j => j + p.2.offset + 1)
          else [])).flatten := by
  induction specs with
  | nil => intro off; rfl
  | cons hd rest ih =>
    obtain ⟨n, s⟩ := hd
    intro off
    simp only [initMustBeInt, initNotations, List.map_cons, List.flatten_cons, initNotation]
    rw [ih (off + s.shape.prod)]

/-- Every index `must_be_int` collects for a block starting at `off` lies
in `(off, off + total block length]`. -/
theorem initMustBeInt_bounds (specs : List (String × NotationSpec)) :
    ∀ (off : Nat) (i : Nat), i ∈ initMustBeInt off specs →
      off + 1 ≤ i ∧ i ≤ off + totalLen specs := by
  induction specs with
  | nil => intro off i h; simp [initMustBeInt] at h
  | cons hd rest ih =>
    obtain ⟨n, s⟩ := hd
    intro off i h
    simp only [initMustBeInt, List.mem_append] at h
    have htot : totalLen ((n, s) :: rest) = s.shape.prod + totalLen rest := by
      simpa using totalLen_cons (n, s) rest
    rcases h with h | h
    · by_cases ht : s.ntype = INT_TYPE
      · rw [if_pos ht] at h
        simp only [List.mem_map, List.mem_range] at h
        obtain ⟨j, hj, rfl⟩ := h
        omega
      · rw [if_neg ht] at h
        simp at h
    · have := ih (off + s.shape.prod) i h
      omega

/-- A constraint-adding call preserves the registry layout and the total
length, whether it finishes or raises. -/
theorem addCall_layout (m : Model) (acts : List (String × (NDArr → NDArr)))
    (rv : Val) (ct : Int) :
    (afterCall ((stageGo m acts).map (fun s => s.post_proc rv ct))).layout = m.layout ∧
    (afterCall ((stageGo m acts).map (fun s => s.post_proc rv ct))).length = m.length := by
  have hmap := stageGo_map_proj (fun q : String × Notation => (q.1, q.2.offset, q.2.nlen))
    (fun _ _ => rfl) acts m
  have hlen := (stageGo_stores acts m).2.2.2.2
  cases hs : stageGo m acts with
  | ok s =>
    rw [hs] at hmap hlen
    refine ⟨?_, ?_⟩
    · show (s.post_proc rv ct).layout = m.layout
      exact (clearMats_map_proj (fun q : String × Notation => (q.1, q.2.offset, q.2.nlen))
        (fun _ _ => rfl) s).trans hmap
    · exact hlen
  | error s =>
    rw [hs] at hmap hlen
    exact ⟨hmap, hlen⟩

/-- An `lp_solve` call preserves the registry layout and the total length,
whether it finishes or raises. -/
theorem solveCall_layout (m : Model) (obj_func : List (String × NDArr)) (mz sc : Bool) :
    (afterSolve (m.lp_solve obj_func mz sc)).layout = m.layout ∧
    (afterSolve (m.lp_solve obj_func mz sc)).length = m.length := by
  have hmap := stageGo_map_proj (fun q : String × Notation => (q.1, q.2.offset, q.2.nlen))
    (fun _ _ => rfl) (matActs obj_func) m
  have hlen := (stageGo_stores (matActs obj_func) m).2.2.2.2
  unfold Model.lp_solve
  cases hs : stageGo m (matActs obj_func) with
  | ok s =>
    rw [hs] at hmap hlen
    refine ⟨?_, ?_⟩
    · show (s.clearMats).layout = m.layout
      exact (clearMats_map_proj (fun q : String × Notation => (q.1, q.2.offset, q.2.nlen))
        (fun _ _ => rfl) s).trans hmap
    · exact hlen
  | error s =>
    rw [hs] at hmap hlen
    exact ⟨hmap, hlen⟩

/-! ### Claim theorems -/

/-- C1: after every constraint-adding call (`add_constr`, `add_constr_mat`,
`add_constr_callback`) that returns, and after every `lp_solve` objective
submission that returns, every registered entry's staging buffer `_mat` is
all-zero, so no staged coefficient leaks into a subsequently built row. -/
theorem buffers_zero_after_finalize (m : Model) (coefs : List Coef)
    (coef_mats : List (String × NDArr)) (callbacks : List (String × (NDArr → NDArr)))
    (obj_func : List (String × NDArr)) (rv : Val) (ct : Int) (mz sc : Bool) :
    (∀ m', m.add_constr coefs rv ct = .ok m' → m'.buffersCleared) ∧
    (∀ m', m.add_constr_mat coef_mats rv ct = .ok m' → m'.buffersCleared) ∧
    (∀ m', m.add_constr_callback callbacks rv ct = .ok m' → m'.buffersCleared) ∧
    (∀ m' si, m.lp_solve obj_func mz sc = .ok (m', si) → m'.buffersCleared) := by
  refine ⟨?_, ?_, ?_, ?_⟩
  · intro m' h
    unfold Model.add_constr at h
    obtain ⟨s, _, rfl⟩ := exmap_eq_ok h
    exact post_proc_cleared s rv ct
  · intro m' h
    unfold Model.add_constr_mat at h
    obtain ⟨s, _, rfl⟩ := exmap_eq_ok h
    exact post_proc_cleared s rv ct
  · intro m' h
    unfold Model.add_constr_callback at h
    obtain ⟨s, _, rfl⟩ := exmap_eq_ok h
    exact post_proc_cleared s rv ct
  · intro m' si h
    unfold Model.lp_solve at h
    obtain ⟨s, _, hpair⟩ := exmap_eq_ok h
    have h1 : m' = s.clearMats := congrArg Prod.fst hpair
    rw [h1]
    exact clearMats_cleared s

/-- C1 witness: the concrete successful `add_constr` call on `w1specs`
leaves the buffer all-zero. -/
theorem buffers_zero_after_finalize_witness : w1res.buffersCleared :=
  (buffers_zero_after_finalize (mkModel w1specs) [⟨"x", 0, Val.fin 3⟩] [] [] []
    (Val.fin 1) LEQ true true).1 w1res rfl

/-- C2: the `i`-th registered entry's `_offset` equals the sum of the
`_length` values of the entries registered before it, its `_length` is the
product of its shape, the model's `length` is the sum of all `_length`
values, and no constraint-adding or solving call ever changes an offset, a
`_length`, or the total. -/
theorem layout_offsets_total (specs : List (String × NotationSpec)) (i : Nat)
    (h : i < specs.length) :
    ((mkModel specs).notations[i]?).map (fun p => (p.2.offset, p.2.nlen))
        = some (totalLen (specs.take i), (specs.get ⟨i, h⟩).2.shape.prod) ∧
    (mkModel specs).length = totalLen specs ∧
    (∀ (m : Model) (coefs : List Coef) (rv : Val) (ct : Int),
        (afterCall (m.add_constr coefs rv ct)).layout = m.layout ∧
        (afterCall (m.add_constr coefs rv ct)).length = m.length) ∧
    (∀ (m : Model) (coef_mats : List (String × NDArr)) (rv : Val) (ct : Int),
        (afterCall (m.add_constr_mat coef_mats rv ct)).layout = m.layout ∧
        (afterCall (m.add_constr_mat coef_mats rv ct)).length = m.length) ∧
    (∀ (m : Model) (callbacks : List (String × (NDArr → NDArr))) (rv : Val) (ct : Int),
        (afterCall (m.add_constr_callback callbacks rv ct)).layout = m.layout ∧
        (afterCall (m.add_constr_callback callbacks rv ct)).length = m.length) ∧
    (∀ (m : Model) (obj_func : List (String × NDArr)) (mz sc : Bool),
        (afterSolve (m.lp_solve obj_func mz sc)).layout = m.layout ∧
        (afterSolve (m.lp_solve obj_func mz sc)).length = m.length) := by
  refine ⟨?_, rfl, ?_, ?_, ?_, ?_⟩
  · show (initNotations 0 specs)[i]?.map _ = _
    rw [initNotations_getElem specs 0 i]
    have hi : specs[i]? = some (specs.get ⟨i, h⟩) := by
      rw [List.getElem?_eq_getElem h]
      rfl
    rw [hi]
    simp [initNotation]
  · intro m coefs rv ct
    exact addCall_layout m (itemActs coefs) rv ct
  · intro m coef_mats rv ct
    exact addCall_layout m (matActs coef_mats) rv ct
  · intro m callbacks rv ct
    exact addCall_layout m callbacks rv ct
  · intro m obj_func mz sc
    exact solveCall_layout m obj_func mz sc

/-- C2 witness: in `w2specs` the second entry starts at offset 6 (the six
values of `x`) and holds 4 values. -/
theorem layout_offsets_total_witness :
    ((mkModel w2specs).notations[1]?).map (fun p => (p.2.offset, p.2.nlen)) = some (6, 4) := by
  have h := (layout_offsets_total w2specs 1 (by decide)).1
  rw [h]
  decide

/-- C10: after construction, `must_be_int` is exactly the in-order
concatenation of the 1-based flat index blocks
`offset+1, ..., offset+length` of the `INT_TYPE` entries (nothing for
`FLOAT_TYPE` entries), and every element lies in `[1, total flat dimension]`. -/
theorem must_be_int_spec (specs : List (String × NotationSpec)) :
    (mkModel specs).must_be_int
      = ((mkModel specs).notations.map (fun p =>
          if p.2.ntype = INT_TYPE
          then (List.range p.2.nlen).map (fun j => j + p.2.offset + 1)
          else [])).flatten ∧
    ∀ i ∈ (mkModel specs).must_be_int, 1 ≤ i ∧ i ≤ (mkModel specs).length := by
  constructor
  · exact initMustBeInt_flatten specs 0
  · intro i hmem
    have hb := initMustBeInt_bounds specs 0 i hmem
    constructor
    · omega
    · show i ≤ totalLen specs
      omega

/-- C10 witness: in `w2specs` (`x` float with 6 values, then `y` integer
with 4), index 7 is collected and lies in `[1, 10]`. -/
theorem must_be_int_spec_witness : 1 ≤ 7 ∧ 7 ≤ (mkModel w2specs).length :=
  (must_be_int_spec w2specs).2 7 (by decide)

/-- C3: from the same starting model, if the itemized, dense and callback
staging paths produce the same flat buffer contents, the three
constraint-adding calls all succeed and append identical flat coefficient
rows, right-hand sides and relation codes to the constraint store. -/
theorem three_styles_agree (m s1 s2 s3 : Model) (coefs : List Coef)
    (coef_mats : List (String × NDArr)) (callbacks : List (String × (NDArr → NDArr)))
    (rv : Val) (ct : Int)
    (h1 : stageGo m (itemActs coefs) = .ok s1)
    (h2 : stageGo m (matActs coef_mats) = .ok s2)
    (h3 : stageGo m callbacks = .ok s3)
    (e12 : s1.flatMats = s2.flatMats) (e23 : s2.flatMats = s3.flatMats) :
    m.add_constr coefs rv ct = .ok (s1.post_proc rv ct) ∧
    m.add_constr_mat coef_mats rv ct = .ok (s2.post_proc rv ct) ∧
    m.add_constr_callback callbacks rv ct = .ok (s3.post_proc rv ct) ∧
    (s1.post_proc rv ct).coef_mat = m.coef_mat ++ [s1.flatMats.map clampInf] ∧
    (s1.post_proc rv ct).coef_mat = (s2.post_proc rv ct).coef_mat ∧
    (s2.post_proc rv ct).coef_mat = (s3.post_proc rv ct).coef_mat ∧
    (s1.post_proc rv ct).right_values = (s2.post_proc rv ct).right_values ∧
    (s2.post_proc rv ct).right_values = (s3.post_proc rv ct).right_values ∧
    (s1.post_proc rv ct).constr_types = (s2.post_proc rv ct).constr_types ∧
    (s2.post_proc rv ct).constr_types = (s3.post_proc rv ct).constr_types := by
  have c1 : s1.coef_mat = m.coef_mat := by
    have hh := (stageGo_stores (itemActs coefs) m).1
    rw [h1] at hh
    exact hh
  have c2 : s2.coef_mat = m.coef_mat := by
    have hh := (stageGo_stores (matActs coef_mats) m).1
    rw [h2] at hh
    exact hh
  have c3 : s3.coef_mat = m.coef_mat := by
    have hh := (stageGo_stores callbacks m).1
    rw [h3] at hh
    exact hh
  have r1 : s1.right_values = m.right_values := by
    have hh := (stageGo_stores (itemActs coefs) m).2.1
    rw [h1] at hh
    exact hh
  have r2 : s2.right_values = m.right_values := by
    have hh := (stageGo_stores (matActs coef_mats) m).2.1
    rw [h2] at hh
    exact hh
  have r3 : s3.right_values = m.right_values := by
    have hh := (stageGo_stores callbacks m).2.1
    rw [h3] at hh
    exact hh
  have t1 : s1.constr_types = m.constr_types := by
    have hh := (stageGo_stores (itemActs coefs) m).2.2.1
    rw [h1] at hh
    exact hh
  have t2 : s2.constr_types = m.constr_types := by
    have hh := (stageGo_stores (matActs coef_mats) m).2.2.1
    rw [h2] at hh
    exact hh
  have t3 : s3.constr_types = m.constr_types := by
    have hh := (stageGo_stores callbacks m).2.2.1
    rw [h3] at hh
    exact hh
  refine ⟨?_, ?_, ?_, ?_, ?_, ?_, ?_, ?_, ?_, ?_⟩
  · unfold Model.add_constr
    rw [h1]
    rfl
  · unfold Model.add_constr_mat
    rw [h2]
    rfl
  · unfold Model.add_constr_callback
    rw [h3]
    rfl
  · show s1.coef_mat ++ _ = _
    rw [c1]
  · show s1.coef_mat ++ _ = s2.coef_mat ++ _
    rw [c1, c2, e12]
  · show s2.coef_mat ++ _ = s3.coef_mat ++ _
    rw [c2, c3, e23]
  · show s1.right_values ++ _ = s2.right_values ++ _
    rw [r1, r2]
  · show s2.right_values ++ _ = s3.right_values ++ _
    rw [r2, r3]
  · show s1.constr_types ++ _ = s2.constr_types ++ _
    rw [t1, t2]
  · show s2.constr_types ++ _ = s3.constr_types ++ _
    rw [t2, t3]

/-- C3 witness: the concrete pattern `x = [1,2], y = [3]` authored in the
three styles yields the same appended store, and all three calls succeed. -/
theorem three_styles_agree_witness :
    (c3s1.post_proc (Val.fin 5) EQ).coef_mat = (c3s2.post_proc (Val.fin 5) EQ).coef_mat ∧
    (c3s2.post_proc (Val.fin 5) EQ).coef_mat = (c3s3.post_proc (Val.fin 5) EQ).coef_mat ∧
    c3m.add_constr c3coefs (Val.fin 5) EQ = .ok (c3s1.post_proc (Val.fin 5) EQ) ∧
    c3m.add_constr_mat c3mats (Val.fin 5) EQ = .ok (c3s2.post_proc (Val.fin 5) EQ) ∧
    c3m.add_constr_callback c3cbs (Val.fin 5) EQ = .ok (c3s3.post_proc (Val.fin 5) EQ) := by
  obtain ⟨a1, a2, a3, _, a5, a6, _⟩ :=
    three_styles_agree c3m c3s1 c3s2 c3s3 c3coefs c3mats c3cbs (Val.fin 5) EQ
      rfl rfl rfl (by decide) (by decide)
  exact ⟨a5, a6, a1, a2, a3⟩

/-- C4: reshaping the flat vector obtained by concatenating per-entry
arrays that match the registered shapes (in declaration order) returns
exactly those arrays, name by name. -/
theorem reshape_roundtrip (specs : List (String × NotationSpec)) (xs : List NDArr)
    (hx : List.Forall₂ (fun (x : NDArr) (p : String × NotationSpec) =>
        x.shape = p.2.shape ∧ x.data.length = p.2.shape.prod) xs specs) :
    Model.reshape_notation (mkModel specs) ((xs.map NDArr.ravel).flatten)
      = some ((specs.map (fun p => p.1)).zip xs) := by
  have hlen := flatten_ravel_length _ (fun x p hp => hp.2) hx
  have hfull := reshapeGo_full specs 0 ((xs.map NDArr.ravel).flatten) (by omega)
  show reshapeGo (initNotations 0 specs) _ = _
  rw [hfull]
  rw [sliceSpecs_of_drop _ (fun x p hp => hp) hx 0 _ [] (by simp)]

/-- C4 witness: the concrete arrays of `w4xs` survive the round trip
through `w4specs`. -/
theorem reshape_roundtrip_witness :
    Model.reshape_notation (mkModel w4specs) ((w4xs.map NDArr.ravel).flatten)
      = some ((w4specs.map (fun p => p.1)).zip w4xs) :=
  reshape_roundtrip w4specs w4xs
    (List.Forall₂.cons ⟨rfl, rfl⟩ (List.Forall₂.cons ⟨rfl, rfl⟩ List.Forall₂.nil))

/-- C5: every finalized constraint row, and the objective vector handed to
the solver, is the clamped image of the staged buffers: a `+inf` entry
becomes the big-M sentinel 100000, a `-inf` entry becomes -100000, and
every finite entry passes through unchanged. -/
theorem inf_clamped (m s : Model) (rv : Val) (ct : Int)
    (obj_func : List (String × NDArr)) (mz sc : Bool)
    (h : stageGo m (matActs obj_func) = .ok s) :
    (m.post_proc rv ct).coef_mat = m.coef_mat ++ [m.flatMats.map clampInf] ∧
    (∃ si, m.lp_solve obj_func mz sc = .ok (s.clearMats, si) ∧
        si.obj = s.flatMats.map clampInf) ∧
    clampInf Val.pinf = Val.fin 100000 ∧
    clampInf Val.ninf = Val.fin (-100000) ∧
    (∀ q : ℚ, clampInf (Val.fin q) = Val.fin q) := by
  refine ⟨rfl, ?_, rfl, rfl, fun q => rfl⟩
  unfold Model.lp_solve
  rw [h]
  exact ⟨_, rfl, rfl⟩

/-- C5 witness: with `+inf`, `-inf`, `7` staged, the appended row is
`[100000, -100000, 7]`. -/
theorem inf_clamped_witness :
    (w5s.post_proc (Val.fin 0) LEQ).coef_mat
        = w5s.coef_mat ++ [w5s.flatMats.map clampInf] ∧
    w5s.flatMats.map clampInf = [Val.fin 100000, Val.fin (-100000), Val.fin 7] := by
  refine ⟨(inf_clamped w5s w5s2 (Val.fin 0) LEQ w5obj true true rfl).1, ?_⟩
  decide

/-- C6 counterexample: with upper bound `np.inf` and lower bound `-np.inf`
registered, the bound vectors handed to the solver still contain the
infinities - not the big-M sentinels the claim requires. -/
theorem bounds_not_clamped_counterexample :
    (submitted ((mkModel c6specs).lp_solve c6obj true true)).map
        (fun si => (si.lower_bounds, si.upper_bounds))
      = some ([Val.ninf], [Val.pinf]) ∧
    Val.ninf ≠ Val.fin (-100000) ∧ Val.pinf ≠ Val.fin 100000 := by
  decide

/-- C6 amended: the flattened bound vectors are handed to the solver
exactly as stored - concatenated in declaration order with no infinity
conversion; only the objective vector and the constraint rows are clamped. -/
theorem bounds_passed_unclamped (m s : Model) (obj_func : List (String × NDArr))
    (mz sc : Bool) (h : stageGo m (matActs obj_func) = .ok s) :
    ∃ si, m.lp_solve obj_func mz sc = .ok (s.clearMats, si) ∧
      si.lower_bounds = (m.notations.map (fun p => p.2.lower_bound.ravel)).flatten ∧
      si.upper_bounds = (m.notations.map (fun p => p.2.upper_bound.ravel)).flatten := by
  have hlow := stageGo_map_proj (fun q : String × Notation => q.2.lower_bound.ravel)
    (fun _ _ => rfl) (matActs obj_func) m
  have hup := stageGo_map_proj (fun q : String × Notation => q.2.upper_bound.ravel)
    (fun _ _ => rfl) (matActs obj_func) m
  rw [h] at hlow hup
  unfold Model.lp_solve
  rw [h]
  exact ⟨_, rfl, congrArg List.flatten hlow, congrArg List.flatten hup⟩

/-- C6 amended witness: the concrete call on `c6specs` hands over exactly
the stored (infinite) upper-bound vector. -/
theorem bounds_passed_unclamped_witness :
    (submitted ((mkModel c6specs).lp_solve c6obj true true)).map (fun si => si.upper_bounds)
      = some (((mkModel c6specs).notations.map (fun p => p.2.upper_bound.ravel)).flatten) := by
  obtain ⟨si, hok, _, hu⟩ :=
    bounds_passed_unclamped (mkModel c6specs) c6s c6obj true true rfl
  rw [hok]
  simp [submitted, hu]

/-- C7 counterexample: `add_constr_mat` accepts an array of shape `(3,)`
for the shape-`(2,)` entry `x` without any error, and appends a row of
length 3 to a model whose total flat dimension is 2. -/
theorem shape_mismatch_accepted_counterexample :
    isOkB ((mkModel c7specs).add_constr_mat c7bad (Val.fin 1) LEQ) = true ∧
    (afterCall ((mkModel c7specs).add_constr_mat c7bad (Val.fin 1) LEQ)).coef_mat
        = [[Val.fin 1, Val.fin 1, Val.fin 1]] ∧
    (mkModel c7specs).length = 2 := by
  decide

/-- C7 amended: `add_constr_mat` performs no shape validation - the call
succeeds whenever every referenced name is registered, and a dense
assignment replaces the named buffer wholesale with the supplied array,
whatever its shape. -/
theorem add_constr_mat_unchecked (m : Model) (coef_mats : List (String × NDArr))
    (rv : Val) (ct : Int)
    (hnames : ∀ p ∈ coef_mats, (m.lookup p.1).isSome = true) :
    isOkB (m.add_constr_mat coef_mats rv ct) = true ∧
    (∀ (n : String) (a : NDArr), (m.lookup n).isSome = true →
        m.add_constr_mat [(n, a)] rv ct = .ok ((m.setMat n (fun _ => a)).post_proc rv ct)) := by
  constructor
  · unfold Model.add_constr_mat
    rw [isOkB_map]
    refine stageGo_ok_names (matActs coef_mats) m ?_
    intro b hb
    unfold matActs at hb
    simp only [List.mem_map] at hb
    obtain ⟨p, hp, rfl⟩ := hb
    exact hnames p hp
  · intro n a hn
    unfold Model.add_constr_mat matActs
    simp only [List.map_cons, List.map_nil]
    unfold stageGo
    rw [if_pos hn]
    rfl

/-- C7 amended witness: the wrong-shaped dense assignment `c7bad` is
accepted on `c7specs`. -/
theorem add_constr_mat_unchecked_witness :
    isOkB ((mkModel c7specs).add_constr_mat c7bad (Val.fin 1) LEQ) = true :=
  (add_constr_mat_unchecked (mkModel c7specs) c7bad (Val.fin 1) LEQ (by decide)).1

/-- C8 counterexample: a flat vector of length 2 against a total flat
dimension of 1 does not fail - `reshape_notation` returns `x`'s slice and
silently ignores the excess entry. -/
theorem reshape_long_accepted_counterexample :
    Model.reshape_notation (mkModel c8specs) [Val.fin 1, Val.fin 2]
      = some [("x", ⟨[1], [Val.fin 1]⟩)] ∧
    (mkModel c8specs).length = 1 := by
  decide

/-- C8 amended: `reshape_notation` fails exactly when the flat vector is
too short to cover every slice (length below the total flat dimension);
for any vector at least that long it succeeds, extracting each entry's
slice `[offset, offset + length)` and ignoring any excess tail. -/
theorem reshape_length_behavior (specs : List (String × NotationSpec)) (raw : List Val) :
    (raw.length < totalLen specs → Model.reshape_notation (mkModel specs) raw = none) ∧
    (totalLen specs ≤ raw.length →
        Model.reshape_notation (mkModel specs) raw = some (sliceSpecs 0 raw specs)) := by
  constructor
  · intro h
    exact reshapeGo_short specs 0 raw (Nat.zero_le _) (by omega)
  · intro h
    exact reshapeGo_full specs 0 raw (by omega)

/-- C8 amended witness: on `c8specs` (total dimension 1) the empty vector
fails and a length-2 vector succeeds. -/
theorem reshape_length_behavior_witness :
    Model.reshape_notation (mkModel c8specs) [] = none ∧
    Model.reshape_notation (mkModel c8specs) [Val.fin 1, Val.fin 2]
      = some (sliceSpecs 0 [Val.fin 1, Val.fin 2] c8specs) :=
  ⟨(reshape_length_behavior c8specs []).1 (by decide),
   (reshape_length_behavior c8specs [Val.fin 1, Val.fin 2]).2 (by decide)⟩

/-- C9 counterexample: the failing `add_constr` call on `c9coefs` (second
coefficient names the unregistered `bogus`) leaves `x`'s staging buffer
holding the already-written 5 instead of its pre-call zero state. -/
theorem failed_call_mutates_counterexample :
    isOkB ((mkModel c9specs).add_constr c9coefs (Val.fin 0) EQ) = false ∧
    (mkModel c9specs).flatMats = [Val.fin 0] ∧
    (afterCall ((mkModel c9specs).add_constr c9coefs (Val.fin 0) EQ)).flatMats
      = [Val.fin 5] := by
  decide

/-- C9 amended: a constraint or objective call that fails on an
unregistered name leaves the constraint store, the right-hand sides, the
relation codes, the integer indices and the total length unchanged - but
the staging buffers may retain the writes made before the failure. -/
theorem failed_call_preserves_stores (m : Model) (coefs : List Coef)
    (coef_mats : List (String × NDArr)) (callbacks : List (String × (NDArr → NDArr)))
    (obj_func : List (String × NDArr)) (rv : Val) (ct : Int) (mz sc : Bool) :
    (∀ m', m.add_constr coefs rv ct = .error m' →
        m'.coef_mat = m.coef_mat ∧ m'.right_values = m.right_values ∧
        m'.constr_types = m.constr_types ∧ m'.must_be_int = m.must_be_int ∧
        m'.length = m.length) ∧
    (∀ m', m.add_constr_mat coef_mats rv ct = .error m' →
        m'.coef_mat = m.coef_mat ∧ m'.right_values = m.right_values ∧
        m'.constr_types = m.constr_types ∧ m'.must_be_int = m.must_be_int ∧
        m'.length = m.length) ∧
    (∀ m', m.add_constr_callback callbacks rv ct = .error m' →
        m'.coef_mat = m.coef_mat ∧ m'.right_values = m.right_values ∧
        m'.constr_types = m.constr_types ∧ m'.must_be_int = m.must_be_int ∧
        m'.length = m.length) ∧
    (∀ m', m.lp_solve obj_func mz sc = .error m' →
        m'.coef_mat = m.coef_mat ∧ m'.right_values = m.right_values ∧
        m'.constr_types = m.constr_types ∧ m'.must_be_int = m.must_be_int ∧
        m'.length = m.length) := by
  refine ⟨?_, ?_, ?_, ?_⟩
  · intro m' h
    unfold Model.add_constr at h
    have h' := exmap_eq_error h
    have hs := stageGo_stores (itemActs coefs) m
    rw [h'] at hs
    exact hs
  · intro m' h
    unfold Model.add_constr_mat at h
    have h' := exmap_eq_error h
    have hs := stageGo_stores (matActs coef_mats) m
    rw [h'] at hs
    exact hs
  · intro m' h
    unfold Model.add_constr_callback at h
    have h' := exmap_eq_error h
    have hs := stageGo_stores callbacks m
    rw [h'] at hs
    exact hs
  · intro m' h
    unfold Model.lp_solve at h
    have h' := exmap_eq_error h
    have hs := stageGo_stores (matActs obj_func) m
    rw [h'] at hs
    exact hs

/-- C9 amended witness: the concrete failing call on `c9specs` leaves the
constraint store and the right-hand sides untouched. -/
theorem failed_call_preserves_stores_witness :
    c9err.coef_mat = (mkModel c9specs).coef_mat ∧
    c9err.right_values = (mkModel c9specs).right_values := by
  have h := (failed_call_preserves_stores (mkModel c9specs) c9coefs [] [] []
    (Val.fin 0) EQ true true).1 c9err rfl
  exact ⟨h.1, h.2.1⟩
